import Mathlib

/-!
# Verification of the Telebirr integration core

A shallow embedding, in Lean 4, of the core logic of the Node.js Telebirr
(Fabric payment gateway) integration:

* `src/utils/tools.js` — the canonical request signing protocol
  (`signRequestObject` with `validateAndPrepareObject`,
  `flattenObjectForSigning`, the `EXCLUDE_FIELDS` set, `verifySignature`,
  `createNonceStr`);
* `src/service/applyFabricTokenService.js` — the token lifecycle cache
  (`isTokenValid`, `applyFabricToken`, `clearTokenCache`, `hasValidToken`);
* the two `createRawRequestString` renderers and the order-creation
  validation (`validateOrderRequest`, `createOrder`) of the controllers and
  the order service.

JavaScript objects are modelled as association lists that keep insertion
order (mirroring JS property order for non-integer-like keys); JS `null`
is a dedicated value constructor; machine time is `Int` milliseconds, as
returned by `Date.now()`. Fallible paths return `Except`.
-/

namespace Telebirr

/-! ## Values of a signable request (utils/tools.js data model)

A request object passed to `signRequestObject` is a JSON-like object:
field values are strings, numbers, `null`, or nested objects. Numbers are
modelled as integers (all numeric literals appearing in the repository's
signable fields are integral; `String(n)` and `JSON.stringify(n)` agree
with `Int` printing on them). -/

inductive SignVal where
  | vStr (s : String)
  | vNum (n : Int)
  | vNull
  | vObj (fields : List (String × SignVal))

/-- A JS object: an insertion-ordered association list. -/
abbrev SignObj := List (String × SignVal)

/-- `o[k]` — property access: the first entry with the given key. -/
def jsLookup (o : SignObj) (k : String) : Option SignVal :=
  (o.find? (fun kv => kv.1 == k)).map (fun kv => kv.2)

/-- `o[k] = v` — JS assignment: overwrite in place when the key exists,
append otherwise (JS property insertion order). -/
def jsSet (o : SignObj) (k : String) (v : SignVal) : SignObj :=
  if o.any (fun kv => kv.1 == k) then
    o.map (fun kv => if kv.1 == k then (k, v) else kv)
  else o ++ [(k, v)]

/-- `delete o[k]`. -/
def jsDelete (o : SignObj) (k : String) : SignObj :=
  o.filter (fun kv => !(kv.1 == k))

/-- `value === null` (the no-value sentinel dropped by the canonicalizer;
`undefined`-valued keys are already absent after the `JSON.parse(JSON.stringify(·))`
deep copy, so inputs of this model never carry them). -/
def isVNull : SignVal → Bool
  | .vNull => true
  | _ => false

/-- `typeof value === 'object'` (true for nested objects and for `null`). -/
def isJsObjectType : SignVal → Bool
  | .vObj _ => true
  | .vNull => true
  | _ => false

/-- tools.js `EXCLUDE_FIELDS` (lines 16–24): fields that never participate
in signature generation. -/
def EXCLUDE_FIELDS : List String :=
  ["sign", "sign_type", "header", "refund_info", "openType", "raw_request", "biz_content"]

/-! ### JSON.stringify (used by the canonicalizer for object-typed values)

`JSON.stringify` serializes an object's properties in property order —
i.e. insertion order for the string keys used in this repository. -/

/-- Lowercase hex digit, for `\u00XX` escapes. -/
def hexDigitLower (n : Nat) : Char :=
  if n < 10 then Char.ofNat (48 + n) else Char.ofNat (87 + n)

/-- JSON string escaping of one character, as `JSON.stringify` performs it. -/
def jsonEscapeChar (c : Char) : String :=
  if c = '"' then "\\\""
  else if c = '\\' then "\\\\"
  else if c = Char.ofNat 8 then "\\b"
  else if c = Char.ofNat 9 then "\\t"
  else if c = Char.ofNat 10 then "\\n"
  else if c = Char.ofNat 12 then "\\f"
  else if c = Char.ofNat 13 then "\\r"
  else if c.toNat < 32 then
    "\\u00" ++ String.mk [hexDigitLower (c.toNat / 16), hexDigitLower (c.toNat % 16)]
  else String.singleton c

/-- A JSON-quoted string literal. -/
def jsonQuote (s : String) : String :=
  "\"" ++ String.join (s.data.map jsonEscapeChar) ++ "\""

mutual

/-- `JSON.stringify(value)` for the values of this model. -/
def jsonStringify : SignVal → String
  | .vStr s => jsonQuote s
  | .vNum n => toString n
  | .vNull => "null"
  | .vObj fs => "\x7b" ++ jsonStringifyFields fs ++ "\x7d"

/-- Comma-separated `"key":value` members, in property (insertion) order. -/
def jsonStringifyFields : List (String × SignVal) → String
  | [] => ""
  | [(k, v)] => jsonQuote k ++ ":" ++ jsonStringify v
  | (k, v) :: kv' :: rest =>
    jsonQuote k ++ ":" ++ jsonStringify v ++ "," ++ jsonStringifyFields (kv' :: rest)

end

/-! ### The canonicalizer (tools.js `signRequestObject`, lines 126–179) -/

/-- tools.js `validateAndPrepareObject` (lines 58–78), restricted to the
object case the canonicalizer reaches: drop every top-level field whose
value is the no-value sentinel (`null`/`undefined`); empty strings are
retained. The JSON deep copy is the identity on this model's values. -/
def validateAndPrepareObject (obj : SignObj) : SignObj :=
  obj.filter (fun kv => !(isVNull kv.2))

/-- The `forEach` body of `flattenObjectForSigning` (tools.js lines
96–102): re-insert one immediate child of `biz_content` at the top level
unless it is excluded or absent. -/
def flattenStep (acc : SignObj) (kv : String × SignVal) : SignObj :=
  if !(EXCLUDE_FIELDS.contains kv.1) && !(isVNull kv.2) then jsSet acc kv.1 kv.2
  else acc

/-- tools.js `flattenObjectForSigning` (lines 86–106): remove `biz_content`
from the top level and re-insert each of its immediate children at the top
level, skipping excluded and absent children. Exactly one level deep:
children are inserted verbatim, never recursively flattened. -/
def flattenObjectForSigning (requestObject : SignObj) : SignObj :=
  let flattened := jsDelete requestObject "biz_content"
  match jsLookup requestObject "biz_content" with
  | some (.vObj bizContent) => bizContent.foldl flattenStep flattened
  | _ => flattened

/-! JS `Array.prototype.sort()` compares strings by UTF-16 code units; we
model it with a structural lexicographic comparison on characters (which
agrees with UTF-16 order on the Basic Multilingual Plane, covering every
field name in the repository), realized by insertion sort — any correct
sort yields the same result on duplicate-free key lists. -/

/-- Strict lexicographic order on character lists by code point. -/
def strLtChars : List Char → List Char → Bool
  | [], [] => false
  | [], _ :: _ => true
  | _ :: _, [] => false
  | a :: as, b :: bs =>
    if a.toNat < b.toNat then true
    else if b.toNat < a.toNat then false
    else strLtChars as bs

/-- `a <= b` in JS string comparison order. -/
def strLeb (a b : String) : Bool := !(strLtChars b.data a.data)

/-- The corresponding ordering relation used for sorting field names. -/
def strLeR (a b : String) : Prop := strLeb a b = true

instance : DecidableRel strLeR := fun a b => instDecidableEqBool (strLeb a b) true

/-- The signable field names of a request: keys of the validated, flattened
object, minus the exclusion set, sorted ascending (tools.js lines 141–143). -/
def signFieldNames (requestObject : SignObj) : List String :=
  List.insertionSort strLeR
    (((flattenObjectForSigning (validateAndPrepareObject requestObject)).map
        (fun kv => kv.1)).filter
      (fun k => !(EXCLUDE_FIELDS.contains k)))

/-- Rendering of one signable value (tools.js line 152):
`typeof value === 'object' ? JSON.stringify(value) : String(value)`. -/
def renderSignValue : SignVal → String
  | .vObj fs => jsonStringify (.vObj fs)
  | .vNull => jsonStringify .vNull
  | .vStr s => s
  | .vNum n => toString n

/-- The `key=value` tokens of the canonical string, in sorted field order
(tools.js lines 150–154). -/
def signParts (requestObject : SignObj) : List String :=
  let flattened := flattenObjectForSigning (validateAndPrepareObject requestObject)
  (signFieldNames requestObject).map
    (fun k => k ++ "=" ++ renderSignValue ((jsLookup flattened k).getD .vNull))

/-- The canonical sign string `signOriginStr` built by tools.js
`signRequestObject` (lines 137–156): `key=value` tokens joined by `&`;
an empty signable field set raises `No signable fields found` instead. -/
def signOriginStrOf (requestObject : SignObj) : Except String String :=
  if signFieldNames requestObject = [] then
    .error "No signable fields found in request object"
  else
    .ok (String.intercalate "&" (signParts requestObject))

/-! ### Mapping equality of requests

Two requests are *equal as mappings* when they bind the same keys to the
same values, recursively, regardless of key insertion order. We realize
this by comparing key-sorted normal forms (for the duplicate-free-keyed
objects JS can represent). -/

mutual

/-- Key-sorted normal form of a value: recursively sort every object's
field list by key. -/
def normalizeVal : SignVal → SignVal
  | .vStr s => .vStr s
  | .vNum n => .vNum n
  | .vNull => .vNull
  | .vObj fs =>
    .vObj (List.insertionSort (fun a b : String × SignVal => strLeR a.1 b.1)
      (normalizeFields fs))

/-- Normalize each field's value. -/
def normalizeFields : List (String × SignVal) → List (String × SignVal)
  | [] => []
  | (k, v) :: rest => (k, normalizeVal v) :: normalizeFields rest

end

/-- Equality of requests as mappings (same fields and values, any key
insertion order, recursively). -/
def mapEquiv (a b : SignVal) : Prop := normalizeVal a = normalizeVal b

/-- The keys of an object, in insertion order. -/
def keysOf (o : SignObj) : List String := o.map (fun kv => kv.1)

/-- JS objects bind each key at most once. -/
def NodupKeys (o : SignObj) : Prop := (keysOf o).Nodup

/-- Two `biz_content` slots that are the same mapping up to key insertion
order at the business-content level: both are (duplicate-free) objects
whose field lists are permutations of one another with values syntactically
equal, or the slots are identical (both absent or the same value). -/
def bizContentPerm (o1 o2 : Option SignVal) : Prop :=
  (∃ b1 b2, o1 = some (.vObj b1) ∧ o2 = some (.vObj b2) ∧ b1.Perm b2 ∧ NodupKeys b1) ∨
  o1 = o2

/-! ## The token lifecycle cache (service/applyFabricTokenService.js)

Wall-clock time is `Int` milliseconds (`Date.now()`). The HTTP transport
is an external collaborator: a call of the token-issuance endpoint is an
oracle value `Except String TokenData` — the transport either delivers a
response body or fails with an error message. -/

/-- The token-issuance response body (`FabricTokenResponse`): the token
string and the optional server-declared validity in seconds. A response
that omits `expiresIn` is `none`. The empty string stands for a missing
`token` field (JS falsiness). -/
structure TokenData where
  token : String
  expiresIn : Option Int
  deriving DecidableEq, Repr

/-- One entry of the in-memory token cache (`TokenCache` typedef):
the token data plus the absolute expiry timestamp in ms. -/
structure TokenCache where
  data : TokenData
  expiresAt : Int
  deriving DecidableEq, Repr

/-- `isTokenValid` (lines 91–99): a cached token is valid while the
current time is strictly below the stored expiry minus a 30-second
buffer; an empty cache slot is never valid. -/
def isTokenValid (cache : Option TokenCache) (now : Int) : Bool :=
  match cache with
  | none => false
  | some c => decide (now < c.expiresAt - 30 * 1000)

/-- `hasValidToken` (lines 196–198). -/
def hasValidToken (tokenCache : Option TokenCache) (now : Int) : Bool :=
  isTokenValid tokenCache now

/-- `clearTokenCache` (lines 105–108). -/
def clearTokenCache : Option TokenCache := none

/-- `requestNewToken` (lines 117–140): pass the transport outcome
through, rejecting a response whose `token` field is missing/empty. -/
def requestNewToken (resp : Except String TokenData) : Except String TokenData :=
  match resp with
  | .error e => .error e
  | .ok td =>
    if td.token = "" then .error "Invalid token response: missing token field"
    else .ok td

/-- `tokenData.expiresIn || 3600` (line 172): the declared validity in
seconds, defaulting to 3600 when the field is absent (or JS-falsy `0`). -/
def effectiveExpiresIn (td : TokenData) : Int :=
  match td.expiresIn with
  | some e => if e = 0 then 3600 else e
  | none => 3600

/-- The fetch branch of `applyFabricToken` (lines 168–188): on success,
cache the token with expiry `now + expiresIn * 1000`; on failure, clear
the cache and re-throw with context. Returns the new cache slot and the
call's outcome. -/
def applyFetchResult (now : Int) (resp : Except String TokenData) :
    Option TokenCache × Except String TokenData :=
  match requestNewToken resp with
  | .ok td => (some ⟨td, now + effectiveExpiresIn td * 1000⟩, .ok td)
  | .error e => (clearTokenCache, .error ("Failed to apply Fabric token: " ++ e))

/-- `applyFabricToken` (lines 157–189) as a transition on the module-level
cache slot: return the cached data when `tokenCache && isTokenValid(tokenCache)`,
otherwise perform the fetch (whose outcome is the oracle `resp`). -/
def applyFabricToken (tokenCache : Option TokenCache) (now : Int)
    (resp : Except String TokenData) : Option TokenCache × Except String TokenData :=
  match tokenCache with
  | some c =>
    if isTokenValid (some c) now then (some c, .ok c.data)
    else applyFetchResult now resp
  | none => applyFetchResult now resp

/-! ## Concurrent callers of `applyFabricToken`

Node's cooperative scheduling runs each request handler atomically
between `await` suspension points. Inside `applyFabricToken` the only
suspension point is the awaited HTTP call of `requestNewToken`
(line 169). A run of N concurrent callers is therefore an interleaving of
two atomic segments per caller:

* *check* (lines 158–166 and the start of the fetch): read the cache;
  return the cached data when valid, otherwise start the HTTP call and
  suspend;
* *resolve* (lines 169–181): the HTTP call completes, the token is cached
  and returned.

All fetches are assumed to succeed with the same response `td` (the
success scenario of the concurrency claim). The schedule is a list of
caller indices; scheduling a caller executes its next atomic segment. -/

/-- The progress of one concurrent caller of `applyFabricToken`. -/
inductive CallerPhase where
  | ready
  | fetching
  | finished
  deriving DecidableEq, Repr

/-- The shared cache slot, each caller's phase, and the number of
underlying fetches started so far. -/
structure FabricSystem where
  cache : Option TokenCache
  callers : List CallerPhase
  fetchCount : Nat
  deriving DecidableEq, Repr

/-- Execute the next atomic segment of caller `i` (see module note). -/
def stepCaller (now : Int) (td : TokenData) (s : FabricSystem) (i : Nat) : FabricSystem :=
  match s.callers[i]? with
  | some .ready =>
    if isTokenValid s.cache now then
      { s with callers := s.callers.set i .finished }
    else
      { s with callers := s.callers.set i .fetching, fetchCount := s.fetchCount + 1 }
  | some .fetching =>
    { s with callers := s.callers.set i .finished,
             cache := some ⟨td, now + effectiveExpiresIn td * 1000⟩ }
  | _ => s

/-- Run a schedule of caller indices. -/
def runSchedule (now : Int) (td : TokenData) (s : FabricSystem) (sched : List Nat) :
    FabricSystem :=
  sched.foldl (stepCaller now td) s

/-- N callers, all about to call `applyFabricToken` against an empty cache. -/
def initSystem (n : Nat) : FabricSystem :=
  { cache := none, callers := List.replicate n .ready, fetchCount := 0 }

/-- The schedule that runs callers `k, k+1, …, k+m-1` to completion one
after the other (each caller's check immediately followed by its resolve). -/
def serialFrom (k : Nat) : Nat → List Nat
  | 0 => []
  | m + 1 => k :: k :: serialFrom (k + 1) m

/-- Fully serialized execution of N callers. -/
def serialSchedule (n : Nat) : List Nat := serialFrom 0 n

/-- The burst schedule: every caller performs its cache check before any
fetch resolves (all observe the empty cache), then the fetches resolve. -/
def burstSchedule (n : Nat) : List Nat := List.range n ++ List.range n

/-! ## Dynamically-typed arguments

`verifySignature` and the controller validation receive arbitrary JS
values. We model the value kinds these paths distinguish; numbers are
rationals (JS numbers on the exercised inputs). -/

inductive JsVal where
  | vStr (s : String)
  | vNum (q : ℚ)
  | vBool (b : Bool)
  | vNull
  | vUndef
  deriving DecidableEq, Repr

/-- JS truthiness of a value. -/
def truthy : JsVal → Bool
  | .vStr s => decide (s ≠ "")
  | .vNum q => decide (q ≠ 0)
  | .vBool b => b
  | .vNull => false
  | .vUndef => false

/-- `typeof v === 'string'`. -/
def isJsString : JsVal → Bool
  | .vStr _ => true
  | _ => false

/-- The string payload of a value (only consulted after an
`typeof v === 'string'` guard has passed). -/
def jsStrVal : JsVal → String
  | .vStr s => s
  | _ => ""

/-! ## `verifySignature` (tools.js lines 248–280)

The jsrsasign backend (`pmlib.rs`) is an external collaborator; each of
its four calls inside the `try` block may either return or throw, which an
environment of oracles captures. `Except.error` models a thrown JS
exception propagating out of the function. -/

/-- Oracles for the four jsrsasign calls of the `try` block:
`b64tohex(signature)`, `verifier.init(publicKey)`,
`verifier.updateString(text)`, `verifier.verify(hexSignature)`. -/
structure VerifyEnv where
  b64tohex : JsVal → Except String JsVal
  initKey : JsVal → Except String Unit
  updateText : JsVal → Except String Unit
  verifyHex : JsVal → Except String Bool

/-- The `try` block of `verifySignature` (lines 249–272): falsy arguments
short-circuit to `false`; otherwise the four backend calls run in order
and any thrown error escapes the block. -/
def verifySignatureTry (env : VerifyEnv) (text signature publicKey : JsVal) :
    Except String Bool :=
  if !(truthy text) || !(truthy signature) || !(truthy publicKey) then .ok false
  else
    match env.b64tohex signature with
    | .error e => .error e
    | .ok hexSig =>
      match env.initKey publicKey with
      | .error e => .error e
      | .ok _ =>
        match env.updateText text with
        | .error e => .error e
        | .ok _ =>
          match env.verifyHex hexSig with
          | .error e => .error e
          | .ok b => .ok b

/-- `text.substring(0, 100)` as evaluated by the `catch` block's log call
(line 276): succeeds only when `text` is a string, otherwise throws
`TypeError: text.substring is not a function`. -/
def jsSubstringPreview : JsVal → Except String String
  | .vStr s => .ok (String.mk (s.data.take 100) ++ "...")
  | _ => .error "TypeError: text.substring is not a function"

/-- `verifySignature` (lines 248–280): the `try` block, and on a thrown
error the `catch` block, whose own `console.error` argument evaluates
`text.substring(0, 100)` before `false` can be returned. -/
def verifySignature (env : VerifyEnv) (text signature publicKey : JsVal) :
    Except String Bool :=
  match verifySignatureTry env text signature publicKey with
  | .ok b => .ok b
  | .error _ =>
    match jsSubstringPreview text with
    | .ok _ => .ok false
    | .error te => .error te

/-! ## Order-creation validation (services/orderService.js) -/

/-- `'0' <= c && c <= '9'`. -/
def isDigitChar (c : Char) : Bool := decide (48 ≤ c.toNat) && decide (c.toNat ≤ 57)

/-- Numeric value of a digit run. -/
def digitsToNat (ds : List Char) : Nat :=
  ds.foldl (fun acc c => acc * 10 + (c.toNat - 48)) 0

/-- `parseFloat` on a character sequence: skip leading whitespace, accept
an optional sign, an integer part and an optional fraction, and require
at least one digit (`none` models `NaN`). Exponent suffixes, `Infinity`
and non-decimal forms are ignored — none occur on the validated inputs. -/
def parseFloatChars (cs0 : List Char) : Option ℚ :=
  let cs := cs0.dropWhile (fun c => c == ' ' || c == Char.ofNat 9 || c == Char.ofNat 10 || c == Char.ofNat 13)
  let signAndRest : Bool × List Char :=
    match cs with
    | '-' :: rest => (true, rest)
    | '+' :: rest => (false, rest)
    | _ => (false, cs)
  let ip := signAndRest.2.takeWhile isDigitChar
  let rest1 := signAndRest.2.dropWhile isDigitChar
  let fp : List Char :=
    match rest1 with
    | '.' :: r => r.takeWhile isDigitChar
    | _ => []
  if ip.isEmpty && fp.isEmpty then none
  else
    let mag : ℚ := (digitsToNat ip : ℚ) + (digitsToNat fp : ℚ) / ((10 : ℚ) ^ fp.length)
    some (if signAndRest.1 then -mag else mag)

/-- JS `parseFloat(v)`: numbers pass through; strings are parsed by
prefix; every other value stringifies to something non-numeric (`NaN`). -/
def jsParseFloat : JsVal → Option ℚ
  | .vNum q => some q
  | .vStr s => parseFloatChars s.data
  | _ => none

/-- One of the whitespace characters `String.prototype.trim` strips
(ASCII whitespace suffices here). -/
def isJsWhitespace (c : Char) : Bool :=
  c == ' ' || c == Char.ofNat 9 || c == Char.ofNat 10 ||
  c == Char.ofNat 11 || c == Char.ofNat 12 || c == Char.ofNat 13

/-- JS `String.prototype.trim`: strip leading and trailing whitespace. -/
def jsTrim (s : String) : String :=
  String.mk (((s.data.dropWhile isJsWhitespace).reverse.dropWhile isJsWhitespace).reverse)

/-- `validateOrderRequest(title, amount)` (orderService, lines 1046–1072):
the list of violated rules, empty when the request is valid. -/
def validateOrderRequest (title amount : JsVal) : List String :=
  let titleErrors :=
    if !(truthy title) || !(isJsString title) || decide (jsTrim (jsStrVal title) = "") then
      ["Valid title is required"]
    else if decide (256 < (jsStrVal title).length) then
      ["Title is too long (max 256 characters)"]
    else []
  let amountErrors :=
    if !(truthy amount) && !(amount == JsVal.vNum 0) then ["Amount is required"]
    else
      match jsParseFloat amount with
      | none => ["Amount must be a valid number"]
      | some q =>
        if decide (q ≤ 0) then ["Amount must be greater than 0"]
        else if decide (1000000 < q) then ["Amount exceeds maximum limit"]
        else []
  titleErrors ++ amountErrors

/-- The two ways `createOrder` (orderService, lines 1178–1234) can leave
its validation gate: a 400 `VALIDATION_ERROR` response carrying the
violated rules, or continuing to the token fetch and
`createPreOrderRequest` → `signRequestObject` (the Canonicalizer/Signer). -/
inductive OrderOutcome where
  | validationError (result_code : String) (errors : List String)
  | proceedToSigning
  deriving DecidableEq, Repr

/-- The validation gate of `createOrder` (lines 1189–1206): on any
violated rule, respond `VALIDATION_ERROR` with the rule list and return
before the Fabric token is obtained or anything is signed. -/
def createOrderGate (title amount : JsVal) : OrderOutcome :=
  let validation := validateOrderRequest title amount
  if validation.isEmpty then .proceedToSigning
  else .validationError "VALIDATION_ERROR" validation

/-! ## `createNonceStr` (tools.js lines 304–346) -/

/-- The 36-symbol uppercase-alphanumeric alphabet (`NONCE_CHARS`, line 42). -/
def NONCE_CHARS : String := "ABCDEFGHIJKLMNOPQRSTUVWXYZ0123456789"

/-- `NONCE_CHARS[i]`. -/
def nonceCharAt (i : Nat) : Char := NONCE_CHARS.data.getD i 'A'

/-- The secure path of `createNonceStr(length)` (lines 314–331): one
`crypto.randomBytes` byte per character, mapped into the alphabet by
`byte % NONCE_CHARS.length`. The byte source is the oracle `randomBytes`. -/
def createNonceStr (randomBytes : Nat → Fin 256) (length : Nat := 32) : String :=
  String.mk ((List.range length).map
    (fun i => nonceCharAt ((randomBytes i).val % NONCE_CHARS.length)))

/-- How many of the 256 equally likely byte values select a given
character: the image size of `byte % NONCE_CHARS.length` at that symbol. -/
def nonceCharCount (c : Char) : Nat :=
  ((List.range 256).filter (fun b => nonceCharAt (b % NONCE_CHARS.length) == c)).length

/-- Uniform selection over the 36 symbols: every symbol is hit by the
same number of byte values. -/
def nonceUniform : Prop :=
  ∀ c ∈ NONCE_CHARS.data, ∀ c' ∈ NONCE_CHARS.data, nonceCharCount c = nonceCharCount c'

/-! ## The two raw-request renderers (controllers/mandateOrderController.js
lines 190–213 and services/orderService.js lines 1015–1038)

Both receive the same field values in the claim's scenario, so the
renderers are parameterized by those values. -/

/-- The five signed fields plus the computed signature that feed a
raw-request string. -/
structure RawRequestInputs where
  appid : String
  merch_code : String
  nonce_str : String
  prepay_id : String
  timestamp : String
  sign : String
  deriving DecidableEq, Repr

/-- Uppercase hex digit, for percent-encoding. -/
def hexDigitUpper (n : Nat) : Char :=
  if n < 10 then Char.ofNat (48 + n) else Char.ofNat (55 + n)

/-- UTF-8 bytes of one character. -/
def utf8Bytes (c : Char) : List Nat :=
  let n := c.toNat
  if n < 128 then [n]
  else if n < 2048 then [192 + n / 64, 128 + n % 64]
  else if n < 65536 then [224 + n / 4096, 128 + (n / 64) % 64, 128 + n % 64]
  else [240 + n / 262144, 128 + (n / 4096) % 64, 128 + (n / 64) % 64, 128 + n % 64]

/-- The characters `encodeURIComponent` leaves unencoded:
alphanumerics and `- _ . ! ~ * ' ( )`. -/
def isURIUnreserved (c : Char) : Bool :=
  c.isAlpha || c.isDigit || [45, 95, 46, 33, 126, 42, 39, 40, 41].contains c.toNat

/-- `%XX` for one byte. -/
def percentEncodeByte (b : Nat) : String :=
  String.mk ['%', hexDigitUpper (b / 16 % 16), hexDigitUpper (b % 16)]

/-- `encodeURIComponent`, character by character. -/
def encodeURIChars : List Char → String
  | [] => ""
  | c :: rest =>
    (if isURIUnreserved c then String.singleton c
     else String.join ((utf8Bytes c).map percentEncodeByte)) ++ encodeURIChars rest

/-- JS `encodeURIComponent`. -/
def encodeURIComponent (s : String) : String := encodeURIChars s.data

/-- `createRawRequestString` of the mandate-order controller
(lines 190–213): the fixed field sequence joined by `&`, values inserted
verbatim. -/
def createRawRequestStringMandate (r : RawRequestInputs) : String :=
  String.intercalate "&"
    ["appid=" ++ r.appid,
     "merch_code=" ++ r.merch_code,
     "nonce_str=" ++ r.nonce_str,
     "prepay_id=" ++ r.prepay_id,
     "timestamp=" ++ r.timestamp,
     "sign=" ++ r.sign,
     "sign_type=SHA256WithRSA"]

/-- `createRawRequestString` of the order service (lines 1015–1038): the
same field sequence, but every value passes through `encodeURIComponent`
(the `sign_type` literal excepted). -/
def createRawRequestStringOrder (r : RawRequestInputs) : String :=
  String.intercalate "&"
    ["appid=" ++ encodeURIComponent r.appid,
     "merch_code=" ++ encodeURIComponent r.merch_code,
     "nonce_str=" ++ encodeURIComponent r.nonce_str,
     "prepay_id=" ++ encodeURIComponent r.prepay_id,
     "timestamp=" ++ encodeURIComponent r.timestamp,
     "sign=" ++ encodeURIComponent r.sign,
     "sign_type=SHA256WithRSA"]

end Telebirr

namespace Telebirr

/-! # Supporting lemmas -/

/-! ## Order properties of the field-name comparison -/

theorem char_toNat_inj {a b : Char} (h : a.toNat = b.toNat) : a = b := by
  have h2 := congrArg Char.ofNat h
  simpa [Char.ofNat_toNat] using h2

theorem strLtChars_cons_iff (a b : Char) (as bs : List Char) :
    strLtChars (a :: as) (b :: bs) = true ↔
      a.toNat < b.toNat ∨ (a.toNat = b.toNat ∧ strLtChars as bs = true) := by
  simp only [strLtChars]
  split_ifs with h1 h2
  · simp [h1]
  · simp only [false_iff]
    rintro (h | ⟨he, _⟩) <;> omega
  · have he : a.toNat = b.toNat := by omega
    simp [he]

theorem strLtChars_irrefl : ∀ l : List Char, strLtChars l l = false
  | [] => rfl
  | a :: as => by
    rw [← Bool.not_eq_true, strLtChars_cons_iff]
    rintro (h | ⟨_, h⟩)
    · omega
    · rw [strLtChars_irrefl as] at h
      exact Bool.false_ne_true h

theorem strLtChars_trans : ∀ (l1 l2 l3 : List Char),
    strLtChars l1 l2 = true → strLtChars l2 l3 = true → strLtChars l1 l3 = true
  | [], [], _, h1, _ => by simp [strLtChars] at h1
  | [], _ :: _, l3, _, h2 => by
    cases l3 with
    | nil => simp [strLtChars] at h2
    | cons c cs => rfl
  | _ :: _, [], _, h1, _ => by simp [strLtChars] at h1
  | _ :: _, _ :: _, [], _, h2 => by simp [strLtChars] at h2
  | a :: as, b :: bs, c :: cs, h1, h2 => by
    rw [strLtChars_cons_iff] at h1 h2 ⊢
    rcases h1 with h1 | ⟨he1, h1⟩
    · rcases h2 with h2 | ⟨he2, _⟩
      · exact Or.inl (Nat.lt_trans h1 h2)
      · exact Or.inl (he2 ▸ h1)
    · rcases h2 with h2 | ⟨he2, h2⟩
      · exact Or.inl (he1 ▸ h2)
      · exact Or.inr ⟨he1.trans he2, strLtChars_trans as bs cs h1 h2⟩

theorem strLtChars_eq_of_not_both : ∀ (l1 l2 : List Char),
    strLtChars l1 l2 = false → strLtChars l2 l1 = false → l1 = l2
  | [], [], _, _ => rfl
  | [], _ :: _, h1, _ => by simp [strLtChars] at h1
  | _ :: _, [], _, h2 => by simp [strLtChars] at h2
  | a :: as, b :: bs, h1, h2 => by
    rw [← Bool.not_eq_true, strLtChars_cons_iff] at h1 h2
    push_neg at h1 h2
    have he : a.toNat = b.toNat := Nat.le_antisymm h2.1 h1.1
    have hab : strLtChars as bs = false := by
      have := h1.2 he
      simpa using this
    have hba : strLtChars bs as = false := by
      have := h2.2 he.symm
      simpa using this
    rw [char_toNat_inj he, strLtChars_eq_of_not_both as bs hab hba]

theorem strLeR_iff (a b : String) : strLeR a b ↔ strLtChars b.data a.data = false := by
  unfold strLeR strLeb
  cases h : strLtChars b.data a.data <;> simp

instance : IsTotal String strLeR := by
  constructor
  intro a b
  by_cases h : strLtChars b.data a.data = true
  · right
    rw [strLeR_iff, ← Bool.not_eq_true]
    intro h2
    have := strLtChars_trans _ _ _ h h2
    rw [strLtChars_irrefl] at this
    exact Bool.false_ne_true this
  · left
    rw [strLeR_iff, ← Bool.not_eq_true]
    exact h

instance : IsTrans String strLeR := by
  constructor
  intro a b c hab hbc
  rw [strLeR_iff] at hab hbc ⊢
  rw [← Bool.not_eq_true] at hab hbc ⊢
  intro hca
  by_cases hbcb : strLtChars b.data c.data = true
  · exact hab (strLtChars_trans _ _ _ hbcb hca)
  · have : b.data = c.data :=
      strLtChars_eq_of_not_both _ _ (Bool.not_eq_true _ ▸ hbcb) (Bool.not_eq_true _ ▸ hbc)
    exact hab (this ▸ hca)

instance : IsAntisymm String strLeR := by
  constructor
  intro a b hab hba
  rw [strLeR_iff, ← Bool.not_eq_true] at hab hba
  exact String.ext (strLtChars_eq_of_not_both _ _ (Bool.not_eq_true _ ▸ hba)
    (Bool.not_eq_true _ ▸ hab))

end Telebirr

namespace Telebirr

/-! ## Association-list lemmas for the JS object model -/

theorem jsLookup_cons (k0 : String) (v0 : SignVal) (rest : SignObj) (k : String) :
    jsLookup ((k0, v0) :: rest) k = if k0 = k then some v0 else jsLookup rest k := by
  by_cases h : k0 = k
  · subst h
    simp [jsLookup, List.find?_cons]
  · have hb : (k0 == k) = false := by simpa using h
    simp [jsLookup, List.find?_cons, hb, h]

theorem jsLookup_eq_none_iff (o : SignObj) (k : String) :
    jsLookup o k = none ↔ k ∉ keysOf o := by
  induction o with
  | nil => simp [jsLookup, keysOf]
  | cons kv rest ih =>
    obtain ⟨k0, v0⟩ := kv
    rw [jsLookup_cons]
    by_cases h : k0 = k
    · simp [h, keysOf]
    · simp only [if_neg h, ih, keysOf, List.map_cons, List.mem_cons]
      constructor
      · intro hn hor
        rcases hor with he | hm
        · exact h he.symm
        · exact hn hm
      · intro hn hm
        exact hn (Or.inr hm)

theorem jsLookup_mem {o : SignObj} {k : String} {v : SignVal}
    (h : jsLookup o k = some v) : (k, v) ∈ o := by
  induction o with
  | nil => simp [jsLookup] at h
  | cons kv rest ih =>
    obtain ⟨k0, v0⟩ := kv
    rw [jsLookup_cons] at h
    by_cases hk : k0 = k
    · rw [if_pos hk] at h
      cases h
      subst hk
      exact List.mem_cons_self _ _
    · rw [if_neg hk] at h
      exact List.mem_cons_of_mem _ (ih h)

theorem NodupKeys.tail {kv : String × SignVal} {rest : SignObj}
    (h : NodupKeys (kv :: rest)) : NodupKeys rest := by
  unfold NodupKeys keysOf at h ⊢
  rw [List.map_cons, List.nodup_cons] at h
  exact h.2

theorem NodupKeys.head_not_mem {kv : String × SignVal} {rest : SignObj}
    (h : NodupKeys (kv :: rest)) : kv.1 ∉ keysOf rest := by
  unfold NodupKeys keysOf at h
  rw [List.map_cons, List.nodup_cons] at h
  exact h.1

theorem mem_jsLookup {o : SignObj} {k : String} {v : SignVal}
    (hnd : NodupKeys o) (hm : (k, v) ∈ o) : jsLookup o k = some v := by
  induction o with
  | nil => simp at hm
  | cons kv rest ih =>
    obtain ⟨k0, v0⟩ := kv
    rw [jsLookup_cons]
    rcases List.mem_cons.mp hm with he | hm'
    · cases he
      simp
    · have hk : k0 ≠ k := by
        intro he
        subst he
        exact hnd.head_not_mem (List.mem_map.mpr ⟨(k0, v), hm', rfl⟩)
      rw [if_neg hk]
      exact ih hnd.tail hm'

theorem NodupKeys.perm {o1 o2 : SignObj} (hp : o1.Perm o2) (h : NodupKeys o1) :
    NodupKeys o2 := by
  unfold NodupKeys keysOf at h ⊢
  exact ((hp.map (fun kv => kv.1)).nodup_iff).mp h

theorem jsLookup_perm {o1 o2 : SignObj} (hnd : NodupKeys o1) (hp : o1.Perm o2)
    (k : String) : jsLookup o1 k = jsLookup o2 k := by
  cases h1 : jsLookup o1 k with
  | some v =>
    exact (mem_jsLookup (hnd.perm hp) (hp.mem_iff.mp (jsLookup_mem h1))).symm
  | none =>
    cases h2 : jsLookup o2 k with
    | none => rfl
    | some v =>
      have hm : (k, v) ∈ o1 := hp.mem_iff.mpr (jsLookup_mem h2)
      rw [mem_jsLookup hnd hm] at h1
      cases h1

theorem any_key_eq_true_iff (o : SignObj) (k : String) :
    (o.any (fun kv => kv.1 == k)) = true ↔ k ∈ keysOf o := by
  simp only [List.any_eq_true, keysOf, List.mem_map, beq_iff_eq]

theorem keysOf_map_replace (o : SignObj) (k : String) (v : SignVal) :
    keysOf (o.map (fun kv => if kv.1 == k then (k, v) else kv)) = keysOf o := by
  induction o with
  | nil => rfl
  | cons kv rest ih =>
    obtain ⟨k1, v1⟩ := kv
    unfold keysOf at ih ⊢
    simp only [List.map_cons]
    by_cases h1 : k1 = k
    · rw [if_pos (by simpa using h1), ih]
      simp [h1]
    · rw [if_neg (by simp [h1]), ih]

theorem jsLookup_jsSet_self (o : SignObj) (k : String) (v : SignVal) :
    jsLookup (jsSet o k v) k = some v := by
  unfold jsSet
  by_cases h : o.any (fun kv => kv.1 == k)
  · rw [if_pos h]
    have hmem := (any_key_eq_true_iff o k).mp h
    clear h
    induction o with
    | nil => simp [keysOf] at hmem
    | cons kv rest ih =>
      obtain ⟨k1, v1⟩ := kv
      by_cases h1 : k1 = k
      · simp only [List.map_cons]
        rw [if_pos (by simpa using h1), jsLookup_cons]
        simp
      · simp only [List.map_cons]
        rw [if_neg (by simp [h1]), jsLookup_cons, if_neg h1]
        apply ih
        unfold keysOf at hmem ⊢
        simp only [List.map_cons, List.mem_cons] at hmem
        rcases hmem with he | hm
        · exact absurd he.symm h1
        · exact hm
  · rw [if_neg h]
    have hmem : k ∉ keysOf o := fun hm => h ((any_key_eq_true_iff o k).mpr hm)
    clear h
    induction o with
    | nil =>
      rw [List.nil_append, jsLookup_cons]
      simp
    | cons kv rest ih =>
      obtain ⟨k1, v1⟩ := kv
      have h1 : k1 ≠ k := by
        intro he
        exact hmem (by simp [keysOf, he])
      rw [List.cons_append, jsLookup_cons, if_neg h1]
      apply ih
      intro hm
      exact hmem (by simp [keysOf] at hm ⊢; exact Or.inr hm)

theorem jsLookup_jsSet_other (o : SignObj) (k : String) (v : SignVal) (k' : String)
    (hne : k' ≠ k) : jsLookup (jsSet o k v) k' = jsLookup o k' := by
  unfold jsSet
  by_cases h : o.any (fun kv => kv.1 == k)
  · rw [if_pos h]
    clear h
    induction o with
    | nil => rfl
    | cons kv rest ih =>
      obtain ⟨k1, v1⟩ := kv
      by_cases h1 : k1 = k
      · simp only [List.map_cons]
        rw [if_pos (by simpa using h1), jsLookup_cons, jsLookup_cons,
          if_neg (fun he => hne he.symm), if_neg (fun (he : k1 = k') => hne (he ▸ h1))]
        exact ih
      · simp only [List.map_cons]
        rw [if_neg (by simp [h1]), jsLookup_cons, jsLookup_cons]
        by_cases h2 : k1 = k'
        · simp [h2]
        · rw [if_neg h2, if_neg h2]
          exact ih
  · rw [if_neg h]
    clear h
    induction o with
    | nil =>
      rw [List.nil_append, jsLookup_cons, if_neg (fun he => hne he.symm)]
    | cons kv rest ih =>
      obtain ⟨k1, v1⟩ := kv
      rw [List.cons_append, jsLookup_cons, jsLookup_cons]
      by_cases h2 : k1 = k'
      · simp [h2]
      · rw [if_neg h2, if_neg h2]
        exact ih

theorem mem_keysOf_jsSet (o : SignObj) (k : String) (v : SignVal) (k' : String) :
    k' ∈ keysOf (jsSet o k v) ↔ k' = k ∨ k' ∈ keysOf o := by
  unfold jsSet
  by_cases h : o.any (fun kv => kv.1 == k)
  · rw [if_pos h]
    have hk := (any_key_eq_true_iff o k).mp h
    rw [show keysOf (o.map (fun kv => if kv.1 == k then (k, v) else kv)) = keysOf o
      from keysOf_map_replace o k v]
    constructor
    · exact Or.inr
    · rintro (rfl | hm)
      · exact hk
      · exact hm
  · rw [if_neg h]
    unfold keysOf
    rw [List.map_append]
    simp [keysOf, or_comm]

theorem nodupKeys_jsSet {o : SignObj} {k : String} {v : SignVal}
    (h : NodupKeys o) : NodupKeys (jsSet o k v) := by
  unfold jsSet
  by_cases ha : o.any (fun kv => kv.1 == k)
  · rw [if_pos ha]
    unfold NodupKeys
    rw [keysOf_map_replace]
    exact h
  · rw [if_neg ha]
    have hmem : k ∉ keysOf o := fun hm => ha ((any_key_eq_true_iff o k).mpr hm)
    unfold NodupKeys keysOf at h ⊢
    rw [List.map_append, List.nodup_append]
    refine ⟨h, by simp, ?_⟩
    intro a ha1 ha2
    simp only [List.map_cons, List.map_nil, List.mem_singleton] at ha2
    subst ha2
    exact hmem (by simpa [keysOf] using ha1)

theorem keysOf_filter_subset {o : SignObj} {p : String × SignVal → Bool} {k : String}
    (h : k ∈ keysOf (o.filter p)) : k ∈ keysOf o := by
  unfold keysOf at h ⊢
  obtain ⟨kv, hm, he⟩ := List.mem_map.mp h
  exact List.mem_map.mpr ⟨kv, List.mem_of_mem_filter hm, he⟩

theorem nodupKeys_filter {o : SignObj} (p : String × SignVal → Bool)
    (h : NodupKeys o) : NodupKeys (o.filter p) := by
  unfold NodupKeys keysOf at h ⊢
  exact List.Nodup.sublist ((List.filter_sublist o).map (fun kv => kv.1)) h

theorem jsLookup_jsDelete_self (o : SignObj) (k : String) :
    jsLookup (jsDelete o k) k = none := by
  rw [jsLookup_eq_none_iff]
  intro hmem
  unfold keysOf jsDelete at hmem
  obtain ⟨⟨k1, v1⟩, hm, he⟩ := List.mem_map.mp hmem
  have hf := List.of_mem_filter hm
  simp only [Bool.not_eq_eq_eq_not, Bool.not_true, beq_eq_false_iff_ne] at hf
  exact hf (by simpa using he)

theorem jsLookup_jsDelete_other (o : SignObj) (k k' : String) (hne : k' ≠ k) :
    jsLookup (jsDelete o k) k' = jsLookup o k' := by
  induction o with
  | nil => rfl
  | cons kv rest ih =>
    obtain ⟨k1, v1⟩ := kv
    unfold jsDelete
    rw [List.filter_cons]
    by_cases h1 : k1 = k
    · rw [if_neg (show ¬((!((k1, v1).1 == k)) = true) by simp [h1])]
      rw [jsLookup_cons, if_neg (fun (he : k1 = k') => hne (he ▸ h1))]
      exact ih
    · rw [if_pos (show (!((k1, v1).1 == k)) = true by simp [h1])]
      rw [jsLookup_cons, jsLookup_cons]
      by_cases h2 : k1 = k'
      · simp [h2]
      · rw [if_neg h2, if_neg h2]
        exact ih

theorem jsLookup_validate {o : SignObj} (hnd : NodupKeys o) (k : String) :
    jsLookup (validateAndPrepareObject o) k =
      (jsLookup o k).filter (fun v => !(isVNull v)) := by
  induction o with
  | nil => rfl
  | cons kv rest ih =>
    obtain ⟨k0, v0⟩ := kv
    unfold validateAndPrepareObject at ih ⊢
    rw [List.filter_cons]
    by_cases hp : (!(isVNull v0)) = true
    · rw [if_pos hp, jsLookup_cons, jsLookup_cons]
      by_cases h0 : k0 = k
      · rw [if_pos h0, if_pos h0]
        simp [Option.filter, hp]
      · rw [if_neg h0, if_neg h0]
        exact ih hnd.tail
    · rw [if_neg hp, jsLookup_cons]
      by_cases h0 : k0 = k
      · rw [if_pos h0]
        have hknot : k ∉ keysOf rest := h0 ▸ hnd.head_not_mem
        have hnone : jsLookup (rest.filter (fun kv => !(isVNull kv.2))) k = none := by
          rw [jsLookup_eq_none_iff]
          exact fun hm => hknot (keysOf_filter_subset hm)
        rw [hnone]
        have hv : isVNull v0 = true := by simpa using hp
        simp [Option.filter, hv]
      · rw [if_neg h0]
        exact ih hnd.tail

/-! ## The flattening fold -/

theorem nodupKeys_jsDelete (o : SignObj) (k : String) (h : NodupKeys o) :
    NodupKeys (jsDelete o k) := by
  unfold jsDelete
  exact nodupKeys_filter _ h

theorem nodupKeys_validate (o : SignObj) (h : NodupKeys o) :
    NodupKeys (validateAndPrepareObject o) := by
  unfold validateAndPrepareObject
  exact nodupKeys_filter _ h

theorem nodupKeys_foldl_flattenStep :
    ∀ (b : SignObj) (acc : SignObj), NodupKeys acc →
      NodupKeys (b.foldl flattenStep acc)
  | [], _, h => h
  | kv :: rest, acc, h => by
    rw [List.foldl_cons]
    apply nodupKeys_foldl_flattenStep rest
    unfold flattenStep
    split
    · exact nodupKeys_jsSet h
    · exact h

theorem jsLookup_flattenStep_other (acc : SignObj) (kv : String × SignVal)
    (k : String) (hne : k ≠ kv.1) :
    jsLookup (flattenStep acc kv) k = jsLookup acc k := by
  unfold flattenStep
  split
  · exact jsLookup_jsSet_other acc kv.1 kv.2 k hne
  · rfl

theorem jsLookup_foldl_flattenStep_pointwise :
    ∀ (b : SignObj) (acc1 acc2 : SignObj),
      (∀ k, jsLookup acc1 k = jsLookup acc2 k) →
      ∀ k, jsLookup (b.foldl flattenStep acc1) k = jsLookup (b.foldl flattenStep acc2) k
  | [], _, _, heq, k => heq k
  | kv :: rest, acc1, acc2, heq, k => by
    rw [List.foldl_cons, List.foldl_cons]
    apply jsLookup_foldl_flattenStep_pointwise rest
    intro k'
    by_cases hk : k' = kv.1
    · subst hk
      unfold flattenStep
      split
      · rw [jsLookup_jsSet_self, jsLookup_jsSet_self]
      · exact heq _
    · rw [jsLookup_flattenStep_other _ _ _ hk, jsLookup_flattenStep_other _ _ _ hk]
      exact heq _

theorem jsLookup_foldl_flattenStep :
    ∀ {b : SignObj}, NodupKeys b → ∀ (acc : SignObj) (k : String),
      jsLookup (b.foldl flattenStep acc) k =
        match jsLookup b k with
        | some v =>
          if !(EXCLUDE_FIELDS.contains k) && !(isVNull v) then some v
          else jsLookup acc k
        | none => jsLookup acc k
  | [], _, acc, k => rfl
  | (k0, v0) :: rest, hnd, acc, k => by
    rw [List.foldl_cons, jsLookup_foldl_flattenStep hnd.tail, jsLookup_cons]
    by_cases hk : k0 = k
    · subst hk
      have hrest : jsLookup rest k0 = none :=
        (jsLookup_eq_none_iff rest k0).mpr hnd.head_not_mem
      rw [hrest, if_pos rfl]
      simp only
      rw [show flattenStep acc (k0, v0) =
        if !(EXCLUDE_FIELDS.contains k0) && !(isVNull v0) then jsSet acc k0 v0 else acc
        from rfl]
      by_cases hc : (!(EXCLUDE_FIELDS.contains k0) && !(isVNull v0)) = true
      · rw [if_pos hc, if_pos hc, jsLookup_jsSet_self]
      · rw [if_neg hc, if_neg hc]
    · rw [if_neg hk]
      have hacc : jsLookup (flattenStep acc (k0, v0)) k = jsLookup acc k :=
        jsLookup_flattenStep_other acc (k0, v0) k (fun he => hk he.symm)
      cases hr : jsLookup rest k with
      | none =>
        simp only
        exact hacc
      | some v =>
        simp only
        rw [hacc]

theorem jsLookup_foldl_flattenStep_excluded :
    ∀ (b : SignObj) (acc : SignObj) (k : String),
      EXCLUDE_FIELDS.contains k = true →
      jsLookup (b.foldl flattenStep acc) k = jsLookup acc k
  | [], _, _, _ => rfl
  | (k0, v0) :: rest, acc, k, hex => by
    rw [List.foldl_cons, jsLookup_foldl_flattenStep_excluded rest _ k hex]
    by_cases hk : k = k0
    · subst hk
      unfold flattenStep
      have hmem : k ∈ EXCLUDE_FIELDS := by simpa using hex
      rw [if_neg (by simp [hmem])]
    · exact jsLookup_flattenStep_other acc (k0, v0) k hk

/-! ## Lookup characterization of `flattenObjectForSigning` -/

theorem jsLookup_flatten_of_biz_obj {o : SignObj} {b : SignObj}
    (hb : jsLookup o "biz_content" = some (.vObj b)) (hndb : NodupKeys b)
    (k : String) :
    jsLookup (flattenObjectForSigning o) k =
      match jsLookup b k with
      | some v =>
        if !(EXCLUDE_FIELDS.contains k) && !(isVNull v) then some v
        else jsLookup (jsDelete o "biz_content") k
      | none => jsLookup (jsDelete o "biz_content") k := by
  simp only [flattenObjectForSigning, hb]
  exact jsLookup_foldl_flattenStep hndb _ k

theorem jsLookup_flatten_of_biz_not_obj {o : SignObj}
    (hb : ∀ b, jsLookup o "biz_content" ≠ some (.vObj b)) (k : String) :
    jsLookup (flattenObjectForSigning o) k = jsLookup (jsDelete o "biz_content") k := by
  unfold flattenObjectForSigning
  split
  · rename_i b heq
    exact absurd heq (hb b)
  · rfl

theorem jsLookup_flatten_biz (o : SignObj) :
    jsLookup (flattenObjectForSigning o) "biz_content" = none := by
  unfold flattenObjectForSigning
  split
  · rw [jsLookup_foldl_flattenStep_excluded _ _ _ (by rfl)]
    exact jsLookup_jsDelete_self o "biz_content"
  · exact jsLookup_jsDelete_self o "biz_content"

theorem nodupKeys_flatten {o : SignObj} (hnd : NodupKeys o) :
    NodupKeys (flattenObjectForSigning o) := by
  unfold flattenObjectForSigning
  split
  · exact nodupKeys_foldl_flattenStep _ _ (nodupKeys_jsDelete o _ hnd)
  · exact nodupKeys_jsDelete o _ hnd

/-! ## Canonicalization is insensitive to top-level and business-content
key insertion order -/

theorem flatten_validate_lookup_eq {r1 r2 : SignObj}
    (h1 : NodupKeys r1) (h2 : NodupKeys r2)
    (hlook : ∀ k, k ≠ "biz_content" → jsLookup r1 k = jsLookup r2 k)
    (hbiz : bizContentPerm (jsLookup r1 "biz_content") (jsLookup r2 "biz_content")) :
    ∀ k, jsLookup (flattenObjectForSigning (validateAndPrepareObject r1)) k =
         jsLookup (flattenObjectForSigning (validateAndPrepareObject r2)) k := by
  intro k
  have hVlook : ∀ k', k' ≠ "biz_content" →
      jsLookup (validateAndPrepareObject r1) k' = jsLookup (validateAndPrepareObject r2) k' := by
    intro k' hk'
    rw [jsLookup_validate h1, jsLookup_validate h2, hlook k' hk']
  have hdel : ∀ k', k' ≠ "biz_content" →
      jsLookup (jsDelete (validateAndPrepareObject r1) "biz_content") k' =
      jsLookup (jsDelete (validateAndPrepareObject r2) "biz_content") k' := by
    intro k' hk'
    rw [jsLookup_jsDelete_other _ _ _ hk', jsLookup_jsDelete_other _ _ _ hk']
    exact hVlook k' hk'
  by_cases hkb : k = "biz_content"
  · subst hkb
    rw [jsLookup_flatten_biz, jsLookup_flatten_biz]
  rcases hbiz with ⟨b1, b2, hb1, hb2, hperm, hnb1⟩ | heq
  · have hnb2 : NodupKeys b2 := NodupKeys.perm hperm hnb1
    have hVb1 : jsLookup (validateAndPrepareObject r1) "biz_content" = some (.vObj b1) := by
      rw [jsLookup_validate h1, hb1]
      rfl
    have hVb2 : jsLookup (validateAndPrepareObject r2) "biz_content" = some (.vObj b2) := by
      rw [jsLookup_validate h2, hb2]
      rfl
    rw [jsLookup_flatten_of_biz_obj hVb1 hnb1 k, jsLookup_flatten_of_biz_obj hVb2 hnb2 k,
      jsLookup_perm hnb1 hperm k]
    cases hbk : jsLookup b2 k with
    | none =>
      simp only
      exact hdel k hkb
    | some v =>
      simp only
      rw [hdel k hkb]
  · have hVbeq : jsLookup (validateAndPrepareObject r1) "biz_content" =
        jsLookup (validateAndPrepareObject r2) "biz_content" := by
      rw [jsLookup_validate h1, jsLookup_validate h2, heq]
    by_cases hobj : ∃ b, jsLookup (validateAndPrepareObject r1) "biz_content" = some (.vObj b)
    · obtain ⟨b, hVb1⟩ := hobj
      have hVb2 : jsLookup (validateAndPrepareObject r2) "biz_content" = some (.vObj b) :=
        hVbeq ▸ hVb1
      simp only [flattenObjectForSigning, hVb1, hVb2]
      apply jsLookup_foldl_flattenStep_pointwise
      intro k'
      by_cases hk' : k' = "biz_content"
      · subst hk'
        rw [jsLookup_jsDelete_self, jsLookup_jsDelete_self]
      · exact hdel k' hk'
    · have hno1 : ∀ b, jsLookup (validateAndPrepareObject r1) "biz_content" ≠ some (.vObj b) :=
        fun b hb => hobj ⟨b, hb⟩
      have hno2 : ∀ b, jsLookup (validateAndPrepareObject r2) "biz_content" ≠ some (.vObj b) :=
        fun b hb => hobj ⟨b, hVbeq.trans hb⟩
      rw [jsLookup_flatten_of_biz_not_obj hno1 k, jsLookup_flatten_of_biz_not_obj hno2 k]
      exact hdel k hkb

theorem sorted_keys_eq_of_lookup_eq {A B : SignObj}
    (hA : NodupKeys A) (hB : NodupKeys B)
    (heq : ∀ k, jsLookup A k = jsLookup B k) :
    List.insertionSort strLeR ((keysOf A).filter (fun k => !(EXCLUDE_FIELDS.contains k))) =
    List.insertionSort strLeR ((keysOf B).filter (fun k => !(EXCLUDE_FIELDS.contains k))) := by
  have hmem : ∀ k, k ∈ keysOf A ↔ k ∈ keysOf B := by
    intro k
    by_cases hk : jsLookup A k = none
    · have hkB : jsLookup B k = none := heq k ▸ hk
      simp [(jsLookup_eq_none_iff A k).mp hk, (jsLookup_eq_none_iff B k).mp hkB]
    · have hkB : ¬ jsLookup B k = none := heq k ▸ hk
      have hA' : k ∈ keysOf A := by
        by_contra hc
        exact hk ((jsLookup_eq_none_iff A k).mpr hc)
      have hB' : k ∈ keysOf B := by
        by_contra hc
        exact hkB ((jsLookup_eq_none_iff B k).mpr hc)
      simp [hA', hB']
  have hperm : (keysOf A).Perm (keysOf B) := (List.perm_ext_iff_of_nodup hA hB).mpr hmem
  have hfperm := hperm.filter (fun k => !(EXCLUDE_FIELDS.contains k))
  exact List.eq_of_perm_of_sorted
    ((List.perm_insertionSort _ _).trans (hfperm.trans (List.perm_insertionSort _ _).symm))
    (List.sorted_insertionSort _ _) (List.sorted_insertionSort _ _)

/-- C2 (amended): canonicalization is deterministic with respect to key
insertion order at the top level and at the immediate business-content
level: two requests that bind the same keys to the same values — with
`biz_content` allowed to be a permutation of the same field/value pairs —
produce the identical canonical sign string. (Key order inside
doubly-nested object values is observable, see the counterexample, so
those values must match syntactically.) -/
theorem signOriginStr_congr {r1 r2 : SignObj}
    (h1 : NodupKeys r1) (h2 : NodupKeys r2)
    (hlook : ∀ k, k ≠ "biz_content" → jsLookup r1 k = jsLookup r2 k)
    (hbiz : bizContentPerm (jsLookup r1 "biz_content") (jsLookup r2 "biz_content")) :
    signOriginStrOf r1 = signOriginStrOf r2 := by
  have hflat := flatten_validate_lookup_eq h1 h2 hlook hbiz
  have hnames : signFieldNames r1 = signFieldNames r2 := by
    unfold signFieldNames
    exact sorted_keys_eq_of_lookup_eq
      (nodupKeys_flatten (nodupKeys_validate r1 h1))
      (nodupKeys_flatten (nodupKeys_validate r2 h2)) hflat
  have hparts : signParts r1 = signParts r2 := by
    unfold signParts
    rw [hnames]
    apply List.map_congr_left
    intro k _
    rw [hflat k]
  unfold signOriginStrOf
  rw [hnames, hparts]

/-! ## Runs of concurrent `applyFabricToken` callers -/

theorem getElem?_replicate_append {α : Type} :
    ∀ (k : Nat) (a b : α) (l : List α), (List.replicate k a ++ b :: l)[k]? = some b
  | 0, _, _, _ => by simp
  | k + 1, a, b, l => by
    rw [List.replicate_succ, List.cons_append]
    simpa using getElem?_replicate_append k a b l

theorem getElem?_replicate_lt {α : Type} :
    ∀ (k n : Nat) (a : α) (l : List α), k < n → (List.replicate n a ++ l)[k]? = some a
  | 0, 0, _, _, h => absurd h (by omega)
  | 0, n + 1, a, l, _ => by simp [List.replicate_succ]
  | k + 1, 0, _, _, h => absurd h (by omega)
  | k + 1, n + 1, a, l, h => by
    rw [List.replicate_succ, List.cons_append]
    simpa using getElem?_replicate_lt k n a l (by omega)

theorem set_replicate_append {α : Type} :
    ∀ (k : Nat) (a b c : α) (l : List α),
      (List.replicate k a ++ b :: l).set k c = List.replicate k a ++ c :: l
  | 0, _, _, _, _ => by simp
  | k + 1, a, b, c, l => by
    rw [List.replicate_succ, List.cons_append, List.cons_append, List.set_cons_succ,
      set_replicate_append k a b c l]

theorem replicate_append_cons_self {α : Type} (k : Nat) (a : α) (l : List α) :
    List.replicate k a ++ a :: l = a :: (List.replicate k a ++ l) := by
  rw [List.append_cons, ← List.replicate_succ', List.replicate_succ, List.cons_append]

theorem run_range'_checks (now : Int) (td : TokenData) :
    ∀ (m k fc : Nat),
      runSchedule now td
        ⟨none, List.replicate k .fetching ++ List.replicate m .ready, fc⟩
        (List.range' k m) =
      ⟨none, List.replicate (k + m) .fetching, fc + m⟩
  | 0, k, fc => by
    simp [runSchedule]
  | m + 1, k, fc => by
    rw [List.range'_succ]
    unfold runSchedule
    rw [List.foldl_cons]
    have hstep : stepCaller now td
        ⟨none, List.replicate k .fetching ++ List.replicate (m + 1) .ready, fc⟩ k =
        ⟨none, List.replicate (k + 1) .fetching ++ List.replicate m .ready, fc + 1⟩ := by
      unfold stepCaller
      simp only [List.replicate_succ, getElem?_replicate_append, isTokenValid,
        Bool.false_eq_true, ite_false, set_replicate_append]
      simp [List.replicate_succ, replicate_append_cons_self]
    rw [hstep]
    have ih := run_range'_checks now td m (k + 1) (fc + 1)
    unfold runSchedule at ih
    rw [ih]
    congr 1
    · congr 1
      omega
    · omega

theorem run_range'_resolves (now : Int) (td : TokenData) :
    ∀ (m k fc : Nat) (c : Option TokenCache),
      runSchedule now td
        ⟨c, List.replicate k .finished ++ List.replicate m .fetching, fc⟩
        (List.range' k m) =
      ⟨if m = 0 then c else some ⟨td, now + effectiveExpiresIn td * 1000⟩,
       List.replicate (k + m) .finished, fc⟩
  | 0, k, fc, c => by
    simp [runSchedule]
  | m + 1, k, fc, c => by
    rw [List.range'_succ]
    unfold runSchedule
    rw [List.foldl_cons]
    have hstep : stepCaller now td
        ⟨c, List.replicate k .finished ++ List.replicate (m + 1) .fetching, fc⟩ k =
        ⟨some ⟨td, now + effectiveExpiresIn td * 1000⟩,
         List.replicate (k + 1) .finished ++ List.replicate m .fetching, fc⟩ := by
      unfold stepCaller
      simp only [List.replicate_succ, getElem?_replicate_append, set_replicate_append]
      simp [List.replicate_succ, replicate_append_cons_self]
    rw [hstep]
    have ih := run_range'_resolves now td m (k + 1) fc
      (some ⟨td, now + effectiveExpiresIn td * 1000⟩)
    unfold runSchedule at ih
    rw [ih]
    congr 1
    · split <;> rfl
    · congr 1
      omega

theorem run_serial_valid (now : Int) (td : TokenData) (c : Option TokenCache)
    (hv : isTokenValid c now = true) :
    ∀ (m k fc : Nat),
      runSchedule now td
        ⟨c, List.replicate k .finished ++ List.replicate m .ready, fc⟩
        (serialFrom k m) =
      ⟨c, List.replicate (k + m) .finished, fc⟩
  | 0, k, fc => by
    simp [runSchedule, serialFrom]
  | m + 1, k, fc => by
    rw [show serialFrom k (m + 1) = k :: k :: serialFrom (k + 1) m from rfl]
    unfold runSchedule
    rw [List.foldl_cons, List.foldl_cons]
    have hstep1 : stepCaller now td
        ⟨c, List.replicate k .finished ++ List.replicate (m + 1) .ready, fc⟩ k =
        ⟨c, List.replicate (k + 1) .finished ++ List.replicate m .ready, fc⟩ := by
      unfold stepCaller
      simp only [List.replicate_succ, getElem?_replicate_append, hv, ite_true,
        set_replicate_append]
      simp [List.replicate_succ, replicate_append_cons_self]
    rw [hstep1]
    have hstep2 : stepCaller now td
        ⟨c, List.replicate (k + 1) .finished ++ List.replicate m .ready, fc⟩ k =
        ⟨c, List.replicate (k + 1) .finished ++ List.replicate m .ready, fc⟩ := by
      unfold stepCaller
      rw [getElem?_replicate_lt k (k + 1) _ _ (by omega)]
    rw [hstep2]
    have ih := run_serial_valid now td c hv m (k + 1) fc
    unfold runSchedule at ih
    rw [ih]
    congr 2
    omega

end Telebirr

namespace Telebirr

/-! # The claims -/

/-- C3: `applyFabricToken` caches expiry as fetch time plus the
server-declared `expiresIn` seconds (default 3600 when the server omits
it) and returns the cached token exactly while the current time is
earlier than expiry minus the 30-second buffer: after a fetch at `t0`
declaring `expiresIn = 100`, the cached token is returned for every time
strictly before `t0 + 70` seconds and a new fetch is performed at or
after `t0 + 70` seconds. -/
theorem applyFabricToken_expiry_and_window (t0 : Int) (td : TokenData)
    (htok : td.token ≠ "") :
    applyFabricToken none t0 (.ok td) =
      (some ⟨td, t0 + effectiveExpiresIn td * 1000⟩, .ok td) ∧
    (td.expiresIn = none → effectiveExpiresIn td = 3600) ∧
    (∀ e : Int, td.expiresIn = some e → e ≠ 0 → effectiveExpiresIn td = e) ∧
    (td.expiresIn = some 100 →
      ∀ (t : Int) (resp : Except String TokenData),
        (t < t0 + 70000 →
          applyFabricToken (some ⟨td, t0 + 100000⟩) t resp =
            (some ⟨td, t0 + 100000⟩, .ok td)) ∧
        (t0 + 70000 ≤ t →
          applyFabricToken (some ⟨td, t0 + 100000⟩) t resp = applyFetchResult t resp)) := by
  refine ⟨?_, ?_, ?_, ?_⟩
  · simp [applyFabricToken, applyFetchResult, requestNewToken, htok]
  · intro h
    simp [effectiveExpiresIn, h]
  · intro e he hne
    simp [effectiveExpiresIn, he, hne]
  · intro _ t resp
    constructor
    · intro hlt
      have hv : isTokenValid (some ⟨td, t0 + 100000⟩) t = true := by
        simp only [isTokenValid, decide_eq_true_eq]
        omega
      simp [applyFabricToken, hv]
    · intro hge
      have hv : isTokenValid (some ⟨td, t0 + 100000⟩) t = false := by
        simp only [isTokenValid, decide_eq_false_iff_not]
        omega
      simp [applyFabricToken, hv]

/-- Witness for C3: concrete run with `expiresIn = 100`, fetch at time 0;
the cached token is served at 69999 ms and a fresh fetch happens at
70000 ms. -/
theorem applyFabricToken_expiry_and_window_witness :
    applyFabricToken none 0 (.ok ⟨"T", some 100⟩) =
      (some ⟨⟨"T", some 100⟩, 100000⟩, .ok ⟨"T", some 100⟩) ∧
    applyFabricToken (some ⟨⟨"T", some 100⟩, 100000⟩) 69999 (.error "x") =
      (some ⟨⟨"T", some 100⟩, 100000⟩, .ok ⟨"T", some 100⟩) ∧
    applyFabricToken (some ⟨⟨"T", some 100⟩, 100000⟩) 70000 (.error "x") =
      applyFetchResult 70000 (.error "x") := by
  have h := applyFabricToken_expiry_and_window 0 ⟨"T", some 100⟩ (by decide)
  refine ⟨by simpa using h.1, ?_, ?_⟩
  · have h2 := (h.2.2.2 rfl 69999 (.error "x")).1 (by decide)
    simpa using h2
  · have h3 := (h.2.2.2 rfl 70000 (.error "x")).2 (by decide)
    simpa using h3

/-- C6: on every token fetch failure (the fetch path being taken because
no valid token is cached), `applyFabricToken` clears the cache slot and
surfaces an error wrapping the underlying transport error; the emptied
slot has no valid token, and a subsequent call performs a fresh fetch. -/
theorem applyFabricToken_failure_clears_cache (st : Option TokenCache) (now : Int)
    (e : String) (hmiss : isTokenValid st now = false) :
    applyFabricToken st now (.error e) =
      (none, .error ("Failed to apply Fabric token: " ++ e)) ∧
    (∀ t : Int, hasValidToken none t = false) ∧
    (∀ (t : Int) (resp : Except String TokenData),
      applyFabricToken none t resp = applyFetchResult t resp) := by
  refine ⟨?_, fun _ => rfl, fun _ _ => rfl⟩
  cases st with
  | none => simp [applyFabricToken, applyFetchResult, requestNewToken, clearTokenCache]
  | some c =>
    rw [show applyFabricToken (some c) now (.error e) =
      if isTokenValid (some c) now then (some c, .ok c.data)
      else applyFetchResult now (.error e) from rfl]
    rw [hmiss]
    simp [applyFetchResult, requestNewToken, clearTokenCache]

/-- Witness for C6: a fetch failure at 70000 ms on a cache whose token
expired (fetched at 0 with `expiresIn = 100`) empties the slot and
reports the wrapped transport error. -/
theorem applyFabricToken_failure_clears_cache_witness :
    applyFabricToken (some ⟨⟨"T", some 100⟩, 100000⟩) 70000 (.error "socket hang up") =
      (none, .error "Failed to apply Fabric token: socket hang up") ∧
    hasValidToken none 70001 = false := by
  have h := applyFabricToken_failure_clears_cache
    (some ⟨⟨"T", some 100⟩, 100000⟩) 70000 "socket hang up" (by decide)
  exact ⟨h.1, h.2.1 70001⟩

/-- C8: order-creation validation rejects amount `0`, non-numeric amount
`"abc"`, and an empty title, each independently producing a
`VALIDATION_ERROR` response carrying the violated rule, and in each case
`createOrder` returns before the token fetch and
`createPreOrderRequest`/`signRequestObject` — no signed request is
produced. -/
theorem createOrder_validation_rejects :
    createOrderGate (.vStr "Sub") (.vNum 0) =
      .validationError "VALIDATION_ERROR" ["Amount must be greater than 0"] ∧
    createOrderGate (.vStr "Sub") (.vStr "abc") =
      .validationError "VALIDATION_ERROR" ["Amount must be a valid number"] ∧
    createOrderGate (.vStr "") (.vNum 100) =
      .validationError "VALIDATION_ERROR" ["Valid title is required"] ∧
    createOrderGate (.vStr "Sub") (.vNum 0) ≠ .proceedToSigning ∧
    createOrderGate (.vStr "Sub") (.vStr "abc") ≠ .proceedToSigning ∧
    createOrderGate (.vStr "") (.vNum 100) ≠ .proceedToSigning :=
  ⟨by decide, by decide, by decide, by decide, by decide, by decide⟩

theorem mem_signFieldNames_not_excluded {r : SignObj} {k : String}
    (h : k ∈ signFieldNames r) : k ∉ EXCLUDE_FIELDS := by
  unfold signFieldNames at h
  have hmem := (List.perm_insertionSort strLeR _).mem_iff.mp h
  have hf := List.of_mem_filter hmem
  intro hex
  rw [show EXCLUDE_FIELDS.contains k = true by simpa using hex] at hf
  simp at hf

/-- C4: every field name of the Exclusion Set (`sign`, `sign_type`,
`header`, `refund_info`, `openType`, `raw_request`, `biz_content`) is
absent from the signable field names of every request — so no `key=value`
token of the canonical string is keyed by an excluded field, whether it
occurred at the top level or inside `biz_content`. -/
theorem signRequestObject_excludes_fields (r : SignObj) (f : String)
    (hf : f ∈ EXCLUDE_FIELDS) :
    f ∉ signFieldNames r ∧
    ∀ part ∈ signParts r, ∃ k, k ∈ signFieldNames r ∧ k ∉ EXCLUDE_FIELDS ∧ k ≠ f ∧
      part = k ++ "=" ++ renderSignValue
        ((jsLookup (flattenObjectForSigning (validateAndPrepareObject r)) k).getD .vNull) := by
  constructor
  · intro hmem
    exact mem_signFieldNames_not_excluded hmem hf
  · intro part hp
    unfold signParts at hp
    obtain ⟨k, hk, he⟩ := List.mem_map.mp hp
    exact ⟨k, hk, mem_signFieldNames_not_excluded hk,
      fun hkf => mem_signFieldNames_not_excluded hk (hkf ▸ hf), he.symm⟩

/-- Witness for C4: the request `{sign: "S", a: 1, biz_content: {b: 2, sign: "x"}}`
keeps neither its top-level `sign` nor the nested one: its canonical
string is exactly `a=1&b=2`. -/
theorem signRequestObject_excludes_fields_witness :
    "sign" ∈ EXCLUDE_FIELDS ∧
    "sign" ∉ signFieldNames
      [("sign", .vStr "S"), ("a", .vNum 1),
       ("biz_content", .vObj [("b", .vNum 2), ("sign", .vStr "x")])] ∧
    signOriginStrOf
      [("sign", .vStr "S"), ("a", .vNum 1),
       ("biz_content", .vObj [("b", .vNum 2), ("sign", .vStr "x")])] = .ok "a=1&b=2" :=
  ⟨by decide,
   (signRequestObject_excludes_fields
     [("sign", .vStr "S"), ("a", .vNum 1),
      ("biz_content", .vObj [("b", .vNum 2), ("sign", .vStr "x")])] "sign" (by decide)).1,
   rfl⟩

/-- C5: flattening of business content is exactly one level deep: the
`biz_content` key itself never survives flattening, each immediate child
(not excluded, not absent) is re-inserted verbatim at the top level, and
a doubly-nested object inside business content is not further flattened
but serialized as a single JSON value — as the two concrete canonical
strings illustrate. -/
theorem flattenObjectForSigning_one_level :
    signOriginStrOf [("a", .vNum 1), ("biz_content", .vObj [("b", .vNum 2), ("sign", .vStr "x")])] =
      .ok "a=1&b=2" ∧
    (∀ o : SignObj, jsLookup (flattenObjectForSigning o) "biz_content" = none) ∧
    (∀ (o b : SignObj) (k : String) (v : SignVal),
      jsLookup o "biz_content" = some (.vObj b) → NodupKeys b → (k, v) ∈ b →
      k ∉ EXCLUDE_FIELDS → isVNull v = false →
      jsLookup (flattenObjectForSigning o) k = some v) ∧
    signOriginStrOf [("a", .vNum 1), ("biz_content", .vObj [("c", .vObj [("d", .vNum 2)])])] =
      .ok "a=1&c=\x7b\"d\":2\x7d" := by
  refine ⟨rfl, jsLookup_flatten_biz, ?_, rfl⟩
  intro o b k v hb hnd hmem hex hv
  rw [jsLookup_flatten_of_biz_obj hb hnd k, mem_jsLookup hnd hmem]
  simp only
  rw [if_pos]
  simp [hv]
  simpa using hex

/-- Witness for C5: the immediate child `b` of `biz_content` is re-inserted
verbatim at the top level of the flattened object. -/
theorem flattenObjectForSigning_one_level_witness :
    jsLookup (flattenObjectForSigning
      [("a", .vNum 1), ("biz_content", .vObj [("b", .vNum 2)])]) "b" = some (.vNum 2) :=
  flattenObjectForSigning_one_level.2.2.1
    [("a", .vNum 1), ("biz_content", .vObj [("b", .vNum 2)])]
    [("b", .vNum 2)] "b" (.vNum 2) rfl (by unfold NodupKeys keysOf; decide) (by simp)
    (by decide) rfl

end Telebirr

namespace Telebirr

/-- C1 (counterexample): two concurrent callers of `applyFabricToken`
that both observe the empty cache (the cache is still empty when the
second caller checks, after the schedule prefix `[0]`) trigger two
underlying fetches, not one — the code has no single-flight guard. -/
theorem applyFabricToken_concurrent_misses_two_fetches :
    (runSchedule 0 ⟨"token", some 3600⟩ (initSystem 2) [0, 1, 0, 1]).fetchCount = 2 ∧
    (initSystem 2).cache = none ∧
    (runSchedule 0 ⟨"token", some 3600⟩ (initSystem 2) [0]).cache = none ∧
    (2 : Nat) ≠ 1 :=
  ⟨rfl, rfl, rfl, by decide⟩

/-- C1 (amended): `applyFabricToken` performs one underlying fetch per
caller that observes an invalid cache. N concurrent callers whose checks
all run before any fetch resolves (the burst schedule) trigger exactly N
fetches, and N fetches remain after all resolves complete; only when the
calls are serialized (each completing before the next checks, and the
fetched token outlives the 30-second buffer) does a single fetch occur. -/
theorem applyFabricToken_fetch_per_concurrent_miss (now : Int) (td : TokenData)
    (n : Nat) :
    (runSchedule now td (initSystem n) (List.range n)).fetchCount = n ∧
    (runSchedule now td (initSystem n) (burstSchedule n)).fetchCount = n ∧
    (30 < effectiveExpiresIn td → 1 ≤ n →
      (runSchedule now td (initSystem n) (serialSchedule n)).fetchCount = 1) := by
  have hinit : initSystem n =
      ⟨none, List.replicate 0 .fetching ++ List.replicate n .ready, 0⟩ := by
    simp [initSystem]
  have hphase1 : runSchedule now td (initSystem n) (List.range n) =
      ⟨none, List.replicate n .fetching, n⟩ := by
    rw [hinit, List.range_eq_range']
    have h := run_range'_checks now td n 0 0
    simpa using h
  refine ⟨by rw [hphase1], ?_, ?_⟩
  · unfold burstSchedule runSchedule
    rw [List.foldl_append]
    unfold runSchedule at hphase1
    rw [hphase1, List.range_eq_range']
    have h2 := run_range'_resolves now td n 0 n none
    unfold runSchedule at h2
    rw [show (⟨none, List.replicate n .fetching, n⟩ : FabricSystem) =
      ⟨none, List.replicate 0 .finished ++ List.replicate n .fetching, n⟩ from by simp]
    rw [h2]
  · intro heff hn
    obtain ⟨m, rfl⟩ : ∃ m, n = m + 1 := ⟨n - 1, by omega⟩
    rw [show serialSchedule (m + 1) = 0 :: 0 :: serialFrom 1 m from rfl]
    unfold runSchedule
    rw [List.foldl_cons, List.foldl_cons]
    have hstep1 : stepCaller now td (initSystem (m + 1)) 0 =
        ⟨none, .fetching :: List.replicate m .ready, 1⟩ := by
      unfold stepCaller initSystem
      simp [List.replicate_succ, isTokenValid]
    rw [hstep1]
    have hstep2 : stepCaller now td ⟨none, .fetching :: List.replicate m .ready, 1⟩ 0 =
        ⟨some ⟨td, now + effectiveExpiresIn td * 1000⟩,
         .finished :: List.replicate m .ready, 1⟩ := by
      unfold stepCaller
      simp
    rw [hstep2]
    have hv : isTokenValid (some ⟨td, now + effectiveExpiresIn td * 1000⟩) now = true := by
      simp only [isTokenValid, decide_eq_true_eq]
      omega
    have h := run_serial_valid now td
      (some ⟨td, now + effectiveExpiresIn td * 1000⟩) hv m 1 1
    unfold runSchedule at h
    rw [show (CallerPhase.finished :: List.replicate m .ready) =
      List.replicate 1 .finished ++ List.replicate m .ready from rfl]
    rw [h]

/-- Witness for C1 (amended): with two callers, the burst schedule
performs two fetches while the serialized schedule performs one. -/
theorem applyFabricToken_fetch_per_concurrent_miss_witness :
    (runSchedule 0 ⟨"tok", some 3600⟩ (initSystem 2) (burstSchedule 2)).fetchCount = 2 ∧
    (runSchedule 0 ⟨"tok", some 3600⟩ (initSystem 2) (serialSchedule 2)).fetchCount = 1 :=
  ⟨(applyFabricToken_fetch_per_concurrent_miss 0 ⟨"tok", some 3600⟩ 2).2.1,
   (applyFabricToken_fetch_per_concurrent_miss 0 ⟨"tok", some 3600⟩ 2).2.2
     (by decide) (by decide)⟩

/-- C2 (counterexample): two requests that are equal as mappings — they
differ only in key insertion order inside a nested object-valued field —
on which `signRequestObject` builds different canonical sign strings
(`JSON.stringify` serializes nested objects in insertion order). -/
theorem signRequestObject_nested_order_counterexample :
    mapEquiv (.vObj [("a", .vObj [("p", .vNum 1), ("q", .vNum 2)])])
             (.vObj [("a", .vObj [("q", .vNum 2), ("p", .vNum 1)])]) ∧
    signOriginStrOf [("a", .vObj [("p", .vNum 1), ("q", .vNum 2)])] =
      .ok "a=\x7b\"p\":1,\"q\":2\x7d" ∧
    signOriginStrOf [("a", .vObj [("q", .vNum 2), ("p", .vNum 1)])] =
      .ok "a=\x7b\"q\":2,\"p\":1\x7d" ∧
    ("a=\x7b\"p\":1,\"q\":2\x7d" : String) ≠ "a=\x7b\"q\":2,\"p\":1\x7d" :=
  ⟨rfl, rfl, rfl, by decide⟩

/-- Witness for C2 (amended = `signOriginStr_congr`): permuting the
fields of `biz_content` (the values themselves unchanged) leaves the
canonical sign string identical. -/
theorem signOriginStr_congr_witness :
    signOriginStrOf
      [("timestamp", .vStr "1"), ("biz_content", .vObj [("x", .vNum 1), ("y", .vNum 2)])] =
    signOriginStrOf
      [("timestamp", .vStr "1"), ("biz_content", .vObj [("y", .vNum 2), ("x", .vNum 1)])] := by
  apply signOriginStr_congr
  · unfold NodupKeys keysOf
    decide
  · unfold NodupKeys keysOf
    decide
  · intro k hk
    rw [jsLookup_cons, jsLookup_cons, jsLookup_cons, jsLookup_cons]
    by_cases ht : "timestamp" = k
    · rw [if_pos ht, if_pos ht]
    · rw [if_neg ht, if_neg ht, if_neg (fun h => hk h.symm), if_neg (fun h => hk h.symm)]
  · exact Or.inl ⟨[("x", .vNum 1), ("y", .vNum 2)], [("y", .vNum 2), ("x", .vNum 1)],
      rfl, rfl, List.Perm.swap ("y", SignVal.vNum 2) ("x", SignVal.vNum 1) [],
      by unfold NodupKeys keysOf; decide⟩

end Telebirr

namespace Telebirr

/-- C7 (counterexample): `verifySignature` throws for a wrongly-typed
truthy `text` (here the number 5) when verification fails — the `catch`
block's log call evaluates `text.substring(0, 100)`, which is not a
function on a number, so the handler itself raises a `TypeError` instead
of returning `false`. -/
theorem verifySignature_nonstring_text_throws :
    verifySignature
      ⟨fun _ => .error "malformed base64", fun _ => .ok (), fun _ => .ok (),
       fun _ => .ok false⟩
      (.vNum 5) (.vStr "AAAA") (.vStr "pubkey") =
      .error "TypeError: text.substring is not a function" := rfl

/-- C7 (amended): for every backend behaviour and every input whose
`text` is a string (or falsy, short-circuiting the guard),
`verifySignature` never throws — it returns a boolean, and returns
`false` whenever the `try` block threw. -/
theorem verifySignature_no_throw_for_string_text (env : VerifyEnv)
    (text signature publicKey : JsVal)
    (h : (∃ s, text = .vStr s) ∨ truthy text = false) :
    (∃ b, verifySignature env text signature publicKey = .ok b) ∧
    (∀ e, verifySignatureTry env text signature publicKey = .error e →
      verifySignature env text signature publicKey = .ok false) := by
  constructor
  · cases htry : verifySignatureTry env text signature publicKey with
    | ok b => exact ⟨b, by simp [verifySignature, htry]⟩
    | error e =>
      rcases h with ⟨s, rfl⟩ | hf
      · exact ⟨false, by simp [verifySignature, htry, jsSubstringPreview]⟩
      · simp [verifySignatureTry, hf] at htry
  · intro e htry
    rcases h with ⟨s, rfl⟩ | hf
    · simp [verifySignature, htry, jsSubstringPreview]
    · simp [verifySignatureTry, hf] at htry

/-- Witness for C7 (amended): with a backend that throws on the malformed
key and a string `text`, the function returns a boolean (namely `false`). -/
theorem verifySignature_no_throw_for_string_text_witness :
    ∃ b, verifySignature
      ⟨fun _ => .error "malformed base64", fun _ => .ok (), fun _ => .ok (),
       fun _ => .ok false⟩
      (.vStr "msg") (.vStr "AAAA") (.vStr "pubkey") = .ok b :=
  (verifySignature_no_throw_for_string_text
    ⟨fun _ => .error "malformed base64", fun _ => .ok (), fun _ => .ok (),
     fun _ => .ok false⟩
    (.vStr "msg") (.vStr "AAAA") (.vStr "pubkey") (Or.inl ⟨"msg", rfl⟩)).1

/-- C9 (counterexample): character selection of `createNonceStr` is not
uniform over the 36 symbols: since 256 = 7 · 36 + 4, the byte map
`b % 36` hits `'A'` for 8 byte values but `'Z'` for only 7. -/
theorem createNonceStr_not_uniform : ¬ nonceUniform := by
  intro h
  have h1 := h 'A' (by decide) 'Z' (by decide)
  rw [show nonceCharCount 'A' = 8 from by decide,
    show nonceCharCount 'Z' = 7 from by decide] at h1
  exact absurd h1 (by decide)

/-- C9 (amended): `createNonceStr(length)` returns exactly `length`
characters (default 32), all drawn from the 36-symbol uppercase
alphanumeric alphabet; each character is `NONCE_CHARS[byte % 36]` for a
secure random byte, which is near-uniform but biased: the four symbols
`A`–`D` are each selected by 8 of the 256 byte values, the other 32
symbols by 7. -/
theorem createNonceStr_length_alphabet_bias (randomBytes : Nat → Fin 256)
    (length : Nat) :
    (createNonceStr randomBytes length).length = length ∧
    (createNonceStr randomBytes).length = 32 ∧
    (∀ c ∈ (createNonceStr randomBytes length).data, c ∈ NONCE_CHARS.data) ∧
    (∀ c ∈ NONCE_CHARS.data.take 4, nonceCharCount c = 8) ∧
    (∀ c ∈ NONCE_CHARS.data.drop 4, nonceCharCount c = 7) := by
  refine ⟨?_, ?_, ?_, by decide, by decide⟩
  · rw [show (createNonceStr randomBytes length).length =
      ((List.range length).map (fun i =>
        nonceCharAt ((randomBytes i).val % NONCE_CHARS.length))).length from rfl]
    rw [List.length_map, List.length_range]
  · rw [show (createNonceStr randomBytes).length =
      ((List.range 32).map (fun i =>
        nonceCharAt ((randomBytes i).val % NONCE_CHARS.length))).length from rfl]
    rw [List.length_map, List.length_range]
  · intro c hc
    simp only [createNonceStr, String.mk, List.mem_map] at hc
    obtain ⟨i, _, rfl⟩ := hc
    have hall : ∀ j ∈ List.range 36, nonceCharAt j ∈ NONCE_CHARS.data := by decide
    exact hall _ (List.mem_range.mpr (Nat.mod_lt _ (by decide)))

/-- Witness for C9 (amended): a concrete byte source; the length,
alphabet-membership and the two bias counts at `'A'` and `'Z'`. -/
theorem createNonceStr_length_alphabet_bias_witness :
    (createNonceStr (fun _ => (0 : Fin 256)) 5).length = 5 ∧
    'A' ∈ NONCE_CHARS.data ∧
    nonceCharCount 'A' = 8 ∧ nonceCharCount 'Z' = 7 := by
  have h := createNonceStr_length_alphabet_bias (fun _ => (0 : Fin 256)) 5
  exact ⟨h.1, by decide, h.2.2.2.1 'A' (by decide), h.2.2.2.2 'Z' (by decide)⟩

/-- C10 (counterexample): the two raw-request renderers disagree on the
same inputs whenever a value contains a character changed by
`encodeURIComponent` — every base64 signature with `+`, `/` or `=`
padding does. -/
theorem createRawRequestString_renderers_differ :
    createRawRequestStringMandate
      ⟨"app1", "m01", "NONCE", "pp77", "1700000000", "QUJD+dGF0/dXJl=="⟩ ≠
    createRawRequestStringOrder
      ⟨"app1", "m01", "NONCE", "pp77", "1700000000", "QUJD+dGF0/dXJl=="⟩ ∧
    createRawRequestStringMandate
      ⟨"app1", "m01", "NONCE", "pp77", "1700000000", "QUJD+dGF0/dXJl=="⟩ =
      "appid=app1&merch_code=m01&nonce_str=NONCE&prepay_id=pp77&timestamp=1700000000&sign=QUJD+dGF0/dXJl==&sign_type=SHA256WithRSA" ∧
    createRawRequestStringOrder
      ⟨"app1", "m01", "NONCE", "pp77", "1700000000", "QUJD+dGF0/dXJl=="⟩ =
      "appid=app1&merch_code=m01&nonce_str=NONCE&prepay_id=pp77&timestamp=1700000000&sign=QUJD%2BdGF0%2FdXJl%3D%3D&sign_type=SHA256WithRSA" :=
  ⟨by decide, rfl, rfl⟩

theorem encodeURIChars_id : ∀ (l : List Char),
    (∀ c ∈ l, isURIUnreserved c = true) → encodeURIChars l = String.mk l
  | [], _ => rfl
  | c :: rest, h => by
    unfold encodeURIChars
    rw [if_pos (h c (List.mem_cons_self c rest))]
    rw [encodeURIChars_id rest (fun c' hc' => h c' (List.mem_cons_of_mem c hc'))]
    apply String.ext
    simp [String.singleton_eq, String.mk]

theorem encodeURIComponent_id {s : String}
    (h : ∀ c ∈ s.data, isURIUnreserved c = true) : encodeURIComponent s = s := by
  unfold encodeURIComponent
  rw [encodeURIChars_id s.data h]

/-- C10 (amended): the two raw-request renderers return the identical
string exactly on inputs whose six values consist only of characters
`encodeURIComponent` leaves unencoded (alphanumerics and `- _ . ! ~ * ' ( )`);
base64 signature characters `+`, `/`, `=` fall outside this set. -/
theorem createRawRequestString_renderers_agree (r : RawRequestInputs)
    (h1 : ∀ c ∈ r.appid.data, isURIUnreserved c = true)
    (h2 : ∀ c ∈ r.merch_code.data, isURIUnreserved c = true)
    (h3 : ∀ c ∈ r.nonce_str.data, isURIUnreserved c = true)
    (h4 : ∀ c ∈ r.prepay_id.data, isURIUnreserved c = true)
    (h5 : ∀ c ∈ r.timestamp.data, isURIUnreserved c = true)
    (h6 : ∀ c ∈ r.sign.data, isURIUnreserved c = true) :
    createRawRequestStringMandate r = createRawRequestStringOrder r := by
  unfold createRawRequestStringMandate createRawRequestStringOrder
  rw [encodeURIComponent_id h1, encodeURIComponent_id h2, encodeURIComponent_id h3,
    encodeURIComponent_id h4, encodeURIComponent_id h5, encodeURIComponent_id h6]

/-- Witness for C10 (amended): on all-alphanumeric values the two
renderers agree. -/
theorem createRawRequestString_renderers_agree_witness :
    createRawRequestStringMandate ⟨"app1", "m01", "NONCE", "pp77", "1700000000", "SIG42"⟩ =
    createRawRequestStringOrder ⟨"app1", "m01", "NONCE", "pp77", "1700000000", "SIG42"⟩ :=
  createRawRequestString_renderers_agree
    ⟨"app1", "m01", "NONCE", "pp77", "1700000000", "SIG42"⟩
    (by decide) (by decide) (by decide) (by decide) (by decide) (by decide)

end Telebirr
